import Mathlib

/-!
Verification of the ER7 message decoder of hl7apy (src/hl7apy/parser.py).

The development shallowly embeds the decoder in Lean:
* message text is a `List Char`; Python `str.split` / `str.strip` are
  re-implemented on lists (`splitOn`, `pyStrip`, `stripCR`);
* `get_message_info` mirrors the separator extractor (parser.py 436-500);
* the hierarchical decomposition stages (`parse_fields`, `parse_field`,
  `parse_components`, `parse_component`, `parse_subcomponents`,
  `parse_subcomponent`, parser.py 140-434) are embedded with the external
  schema/element constructors of hl7apy.core (not part of the sources)
  modelled from the specification as an oracle record `Schema`;
* the group assignment backtracker (`create_groups`, `_find_group`,
  `_go_back`, parser.py 502-583) is embedded as a zipper over an explicit
  frame stack.
-/

/-- Python whitespace test used by `str.strip()` and by the `\S` regex
class: space, tab, newline, carriage return, vertical tab, form feed. -/
def pyIsSpace (c : Char) : Bool :=
  c = ' ' || c = '\t' || c = '\n' || c = '\r' || c = Char.ofNat 11 || c = Char.ofNat 12

/-- Python `str.strip()` on a list of characters. -/
def pyStrip (l : List Char) : List Char :=
  ((l.dropWhile pyIsSpace).reverse.dropWhile pyIsSpace).reverse

/-- Python `text.strip("\r")` (parser.py 180): strip only carriage returns. -/
def stripCR (l : List Char) : List Char :=
  ((l.dropWhile (fun c => c = '\r')).reverse.dropWhile (fun c => c = '\r')).reverse

/-- Python `str.split(sep)` for a one-character separator: consecutive
separators yield empty slots and the result is never empty. -/
def splitOn (sep : Char) : List Char → List (List Char)
  | [] => [[]]
  | c :: cs =>
    if c = sep then [] :: splitOn sep cs
    else
      match splitOn sep cs with
      | [] => [[c]]
      | p :: ps => (c :: p) :: ps

/-- No piece produced by `splitOn sep` contains the separator itself. -/
theorem splitOn_not_mem (sep : Char) :
    ∀ (l : List Char), ∀ p ∈ splitOn sep l, sep ∉ p := by
  intro l
  induction l with
  | nil =>
    intro p hp
    simp only [splitOn, List.mem_singleton] at hp
    subst hp
    simp
  | cons c cs ih =>
    intro p hp
    by_cases hc : c = sep
    · rw [splitOn, if_pos hc] at hp
      rcases List.mem_cons.1 hp with h | h
      · subst h; simp
      · exact ih p h
    · rw [splitOn, if_neg hc] at hp
      rcases hsp : splitOn sep cs with _ | ⟨p0, ps⟩
      · rw [hsp] at hp
        simp only [List.mem_singleton] at hp
        subst hp
        simp only [List.mem_singleton]
        exact fun hh => hc hh.symm
      · rw [hsp] at hp
        rcases List.mem_cons.1 hp with h | h
        · subst h
          intro hmem
          rcases List.mem_cons.1 hmem with h1 | h1
          · exact hc h1.symm
          · exact ih p0 (by rw [hsp]; exact List.mem_cons_self _ _) h1
        · exact ih p (by rw [hsp]; exact List.mem_cons_of_mem _ h)

/-- A list whose deduplication did not shrink has no duplicates
(Python `len(seps) > len(set(seps))` is false). -/
theorem not_dedup_lt_nodup {l : List Char} (h : ¬ l.dedup.length < l.length) :
    l.Nodup := by
  have hsub := List.dedup_sublist l
  have heq : l.dedup = l := hsub.eq_of_length (le_antisymm hsub.length_le (not_lt.1 h))
  rw [← heq]
  exact l.nodup_dedup

/-- A duplicate-free list does not shrink under deduplication. -/
theorem nodup_not_dedup_lt {l : List Char} (h : l.Nodup) :
    ¬ l.dedup.length < l.length := by
  rw [List.dedup_eq_self.2 h]
  exact lt_irrefl _

/-- The record of encoding characters built by `get_message_info`
(parser.py 461-469). -/
structure EncodingChars where
  FIELD : Char
  COMPONENT : Char
  SUBCOMPONENT : Char
  REPETITION : Char
  ESCAPE : Char
  SEGMENT : Char
  GROUP : Char
deriving DecidableEq

/-- Errors of `get_message_info`: `invalidEncodingChars` carries the message
text of the raised `InvalidEncodingChars`, `parserError` models `ParserError`.
`indexErr` models an uncaught Python `IndexError`; it is unreachable in
`get_message_info` because the field separator always occurs in the control
segment, so `fields` has at least two entries. -/
inductive GMIErr where
  | invalidEncodingChars : String → GMIErr
  | parserError : String → GMIErr
  | indexErr : GMIErr
deriving DecidableEq

/-- Result triple of `get_message_info`: encoding characters, optional
message structure (MSH.9), optional version (MSH.12). -/
abbrev GMIResult := EncodingChars × Option (List Char) × Option (List Char)

/-- Modelled from the spec: `N_SEPS` comes from the missing module
hl7apy.consts; the spec (3, 4.1) fixes exactly four encoding characters
after the field separator. -/
def N_SEPS : Nat := 4

/-- Unpacking of the four encoding characters together with the best-effort
extraction of MSH.9 and MSH.12 (parser.py 453-500); reached once the
duplicate check has passed. -/
def gmiTail (fs : Char) (content : List Char) (seps : List Char) : Except GMIErr GMIResult :=
  match seps with
  | [c1, c2, c3, c4] =>
    let fields := splitOn fs (content.takeWhile (fun c => c ≠ '\r'))
    let msgStructure :=
      match fields.get? 8 with
      | none => none
      | some f9 =>
        let mt := splitOn c1 (pyStrip f9)
        match mt.get? 2 with
        | some x => some x
        | none =>
          match mt.get? 0, mt.get? 1 with
          | some a, some b => some (a ++ '_' :: b)
          | _, _ => none
    let vers :=
      match fields.get? 11 with
      | none => none
      | some f12 => (splitOn c1 (pyStrip f12)).get? 0
    .ok (⟨fs, c1, c4, c2, c3, '\r', '\r'⟩, msgStructure, vers)
  | _ =>
    if seps.length < N_SEPS then
      .error (.invalidEncodingChars "Missing required encoding chars")
    else
      .error (.invalidEncodingChars ("Found " ++ toString seps.length ++ " encoding chars"))

/-- Duplicate check on the MSH.2 characters (parser.py 451-452). -/
def gmiSeps (fs : Char) (content : List Char) (seps : List Char) : Except GMIErr GMIResult :=
  if seps.dedup.length < seps.length then
    .error (.invalidEncodingChars "Found duplicate encoding chars")
  else
    gmiTail fs content seps

/-- Body of `get_message_info` once the control tag `MSH` plus field
separator has been matched (parser.py 447-500). `content` is the whole
message text and `fs` the character at offset 3. -/
def gmiBody (fs : Char) (content : List Char) : Except GMIErr GMIResult :=
  match (splitOn fs (content.takeWhile (fun c => c ≠ '\r'))).get? 1 with
  | none => .error .indexErr
  | some seps => gmiSeps fs content seps

theorem gmiBody_eq_seps {fs : Char} {content : List Char} {seps : List Char}
    (hget : (splitOn fs (content.takeWhile (fun c => c ≠ '\r'))).get? 1 = some seps) :
    gmiBody fs content = gmiSeps fs content seps := by
  unfold gmiBody
  rw [hget]

/-- Embedding of `get_message_info` (parser.py 436-500).  The regular
expression `^MSH(\S)` matches exactly when the text starts with the three
letters `MSH` followed by one non-whitespace character, the field
separator. -/
def get_message_info (content : List Char) : Except GMIErr GMIResult :=
  match content with
  | 'M' :: 'S' :: 'H' :: fs :: rest =>
    if pyIsSpace fs then .error (.parserError "Invalid message")
    else gmiBody fs ( 'M' :: 'S' :: 'H' :: fs :: rest)
  | _ => .error (.parserError "Invalid message")

theorem gmi_cons (fs : Char) (rest : List Char) (h : pyIsSpace fs = false) :
    get_message_info ( 'M' :: 'S' :: 'H' :: fs :: rest) =
      gmiBody fs ( 'M' :: 'S' :: 'H' :: fs :: rest) := by
  simp [get_message_info, h]

/-- Successful extraction forces the shape of the result: the four MSH.2
characters are duplicate-free and none of them equals the field
separator. -/
theorem gmiBody_ok (fs : Char) (content : List Char) (enc : EncodingChars)
    (ms v : Option (List Char)) (h : gmiBody fs content = .ok (enc, ms, v)) :
    ∃ c1 c2 c3 c4, enc = ⟨fs, c1, c4, c2, c3, '\r', '\r'⟩ ∧
      List.Nodup [c1, c2, c3, c4] ∧ fs ∉ [c1, c2, c3, c4] := by
  unfold gmiBody at h
  split at h
  · exact absurd h (by simp)
  · rename_i seps hget
    unfold gmiSeps at h
    split at h
    · exact absurd h (by simp)
    · rename_i hdup
      have hnd : seps.Nodup := not_dedup_lt_nodup hdup
      have hmem : seps ∈ splitOn fs (content.takeWhile (fun c => c ≠ '\r')) :=
        List.get?_mem hget
      have hfs : fs ∉ seps := splitOn_not_mem fs _ seps hmem
      unfold gmiTail at h
      split at h
      · rename_i c1 c2 c3 c4
        refine ⟨c1, c2, c3, c4, ?_, hnd, hfs⟩
        simp only [Except.ok.injEq, Prod.mk.injEq] at h
        exact h.1.symm
      · split at h
        · exact absurd h (by simp)
        · exact absurd h (by simp)

/-- C3.  For every input, a successful decode yields five pairwise distinct
encoding characters (the field separator and the four MSH.2 characters);
whenever the extracted characters would collide, `get_message_info` fails
with a hard decode error instead of returning a result. -/
theorem gmi_encoding_chars_pairwise_distinct (content : List Char)
    (enc : EncodingChars) (ms v : Option (List Char))
    (h : get_message_info content = .ok (enc, ms, v)) :
    List.Nodup [enc.FIELD, enc.COMPONENT, enc.REPETITION, enc.ESCAPE, enc.SUBCOMPONENT] := by
  unfold get_message_info at h
  split at h
  · rename_i fs rest
    split at h
    · exact absurd h (by simp)
    · obtain ⟨c1, c2, c3, c4, henc, hnd, hfs⟩ := gmiBody_ok fs _ enc ms v h
      subst henc
      simp only [List.nodup_cons]
      refine ⟨?_, ?_⟩
      · intro hmem
        apply hfs
        simp only [List.mem_cons, List.mem_singleton] at hmem ⊢
        tauto
      · simp only [List.nodup_cons, List.mem_cons, List.mem_singleton] at hnd ⊢
        tauto
  · exact absurd h (by simp)

/-- Witness for C3 on the standard separators. -/
theorem gmi_encoding_chars_pairwise_distinct_witness :
    List.Nodup [ '|', '^', '~', '\\', '&' ] :=
  gmi_encoding_chars_pairwise_distinct
    [ 'M', 'S', 'H', '|', '^', '~', '\\', '&', '|', 'A' ]
    ⟨ '|', '^', '&', '~', '\\', '\r', '\r' ⟩ none none (by rfl)

/-- C5.  For a text beginning with the control tag `MSH` plus a field
separator, the extractor raises `InvalidEncodingChars` when MSH.2 has
duplicate characters, fewer than four characters, or more than four
characters; with exactly four distinct characters it succeeds and assigns
them in order as component, repetition, escape and sub-component
separators. -/
theorem gmi_msh2_cases (fs : Char) (rest : List Char) (seps : List Char)
    (hs : pyIsSpace fs = false)
    (hget : (splitOn fs (( 'M' :: 'S' :: 'H' :: fs :: rest).takeWhile (fun c => c ≠ '\r'))).get? 1 = some seps) :
    (seps.dedup.length < seps.length →
      get_message_info ( 'M' :: 'S' :: 'H' :: fs :: rest) =
        .error (.invalidEncodingChars "Found duplicate encoding chars"))
    ∧ (seps.Nodup → seps.length < 4 →
      get_message_info ( 'M' :: 'S' :: 'H' :: fs :: rest) =
        .error (.invalidEncodingChars "Missing required encoding chars"))
    ∧ (seps.Nodup → 4 < seps.length →
      get_message_info ( 'M' :: 'S' :: 'H' :: fs :: rest) =
        .error (.invalidEncodingChars ("Found " ++ toString seps.length ++ " encoding chars")))
    ∧ (∀ c1 c2 c3 c4, seps = [c1, c2, c3, c4] → seps.Nodup →
      ∃ ms v, get_message_info ( 'M' :: 'S' :: 'H' :: fs :: rest) =
        .ok (⟨fs, c1, c4, c2, c3, '\r', '\r'⟩, ms, v)) := by
  rw [gmi_cons fs rest hs, gmiBody_eq_seps hget]
  refine ⟨?_, ?_, ?_, ?_⟩
  · intro hdup
    unfold gmiSeps
    rw [if_pos hdup]
  · intro hnd hlen
    unfold gmiSeps
    rw [if_neg (nodup_not_dedup_lt hnd)]
    match seps, hlen with
    | [], _ => simp [gmiTail, N_SEPS]
    | [a], _ => simp [gmiTail, N_SEPS]
    | [a, b], _ => simp [gmiTail, N_SEPS]
    | [a, b, c], _ => simp [gmiTail, N_SEPS]
  · intro hnd hlen
    unfold gmiSeps
    rw [if_neg (nodup_not_dedup_lt hnd)]
    match seps, hlen with
    | a :: b :: c :: d :: e :: tl, _ =>
      show gmiTail fs _ _ = _
      unfold gmiTail
      rw [if_neg (by simp [N_SEPS])]
  · intro c1 c2 c3 c4 hshape hnd
    subst hshape
    unfold gmiSeps
    rw [if_neg (nodup_not_dedup_lt hnd)]
    exact ⟨_, _, rfl⟩

/-- Witness for C5: standard separators, duplicated pair, short list and
long list all behave as stated. -/
theorem gmi_msh2_cases_witness :
    ∃ ms v, get_message_info [ 'M', 'S', 'H', '|', '^', '~', '\\', '&' ] =
      .ok (⟨ '|', '^', '&', '~', '\\', '\r', '\r' ⟩, ms, v) :=
  (gmi_msh2_cases '|' [ '^', '~', '\\', '&' ] [ '^', '~', '\\', '&' ]
    (by decide) (by rfl)).2.2.2 '^' '~' '\\' '&' rfl (by decide)

namespace hl7

/-- Tri-state validation policy (spec 6: strict, quiet, tolerant), queried
through the two predicates below, as `hl7apy.validation.Validator` does. -/
inductive VL where
  | strict
  | tolerant
  | quiet
deriving DecidableEq

namespace Validator

/-- Modelled from the spec: `Validator.is_strict` of the missing
hl7apy.validation module tests whether the policy is the strict one. -/
def is_strict (vl : VL) : Bool := vl = VL.strict

/-- Modelled from the spec: `Validator.is_quiet` of the missing
hl7apy.validation module tests whether the policy is the quiet one. -/
def is_quiet (vl : VL) : Bool := vl = VL.quiet

end Validator

/-- Python `str.startswith` via the underlying character lists. -/
def strStarts (p s : String) : Bool := p.toList.isPrefixOf s.toList

/-- Modelled from the spec: oracle for the external Schema Provider
(hl7apy.core.ElementFinder and the datatype tables are not under src/).
`fieldDT n` / `compDT n` return `some dt` when the schema of the active
version resolves the element name `n` with declared datatype `dt`
(`none` inside means no datatype), and `none` when the name is unknown, in
which case the element constructors raise `InvalidName` (spec 4.3).
`base d` is `is_base_datatype d` for the active version. -/
structure Schema where
  fieldDT : String → Option (Option String)
  compDT : String → Option (Option String)
  base : String → Bool

/-- Python `is_base_datatype(dt, version)` on an optional datatype:
`None` is never a base datatype. -/
def isBaseOpt (sch : Schema) : Option String → Bool
  | none => false
  | some d => sch.base d

/-- Decoded sub-component node: name, datatype, raw value. -/
structure SubComponent where
  name : Option String
  datatype : Option String
  value : List Char
deriving DecidableEq

/-- Decoded component node. -/
structure Component where
  name : Option String
  datatype : Option String
  children : List SubComponent
deriving DecidableEq

/-- Decoded field node. -/
structure Field where
  name : Option String
  datatype : Option String
  children : List Component
deriving DecidableEq

/-- Modelled from the spec: the resolution attempt performed by the
`Component(name, datatype, ...)` constructor (spec 4.3, 9): a named
construction resolves the name through the schema, failing with
`InvalidName` when the schema does not know it; an unnamed construction
carries the given datatype. The result is the pair (name, datatype). -/
def compNew (sch : Schema) (name datatype : Option String) :
    Except Unit (Option String × Option String) :=
  match name with
  | some n =>
    match sch.compDT n with
    | some dt => .ok (some n, dt)
    | none => .error ()
  | none => .ok (none, datatype)

/-- Modelled from the spec: the fallback construction
`Component(datatype, ...)` of parser.py 353 builds an untyped fallback
node (spec 4.3: an unnamed/untyped node; spec 9: Fallback with only the
datatype kept). -/
def compFallback (datatype : Option String) : Option String × Option String :=
  (none, datatype)

/-- Modelled from the spec: the resolution attempt performed by the
`Field(name, ...)` constructor (spec 4.3): a named construction resolves
the name through the schema, failing with `InvalidName` otherwise; an
unnamed construction has no datatype. -/
def fieldNew (sch : Schema) (name : Option String) :
    Except Unit (Option String × Option String) :=
  match name with
  | some n =>
    match sch.fieldDT n with
    | some dt => .ok (some n, dt)
    | none => .error ()
  | none => .ok (none, none)

/-- Modelled from the spec: the forced-varies construction
`Field(name, reference=('leaf', 'varies', None, None))` of parser.py
243-244 keeps the requested name and uses the open-ended varies datatype
(spec 4.2 force_varies). -/
def fieldVaries (name : Option String) : Option String × Option String :=
  (name, some "varies")

/-- Modelled from the spec: the plain fallback `Field(version=...)` of
parser.py 246 is an unnamed, untyped field. -/
def fieldFallback : Option String × Option String :=
  (none, none)

/-- Embedding of `parse_subcomponent` (parser.py 413-434). -/
def parse_subcomponent (text : List Char) (name datatype : Option String) : SubComponent :=
  ⟨name, datatype, text⟩

/-- Name and datatype given to the sub-component at 0-based index `i`
(parser.py 402-408). -/
def subSlotName (sch : Schema) (cd : Option String) (i : Nat) :
    Option String × Option String :=
  if isBaseOpt sch cd || cd.isNone then
    (none, some (cd.getD "ST"))
  else
    (some ((cd.getD "") ++ "_" ++ toString (i + 1)), none)

/-- Loop body of `parse_subcomponents` (parser.py 401-411) over the split
pieces, carrying the 0-based index. -/
def parse_subcomponentsGo (sch : Schema) (cd : Option String) :
    Nat → List (List Char) → List SubComponent
  | _, [] => []
  | i, sub :: rest =>
    if pyStrip sub ≠ [] ∨ (subSlotName sch cd i).1 = none then
      parse_subcomponent sub (subSlotName sch cd i).1 (subSlotName sch cd i).2 ::
        parse_subcomponentsGo sch cd (i + 1) rest
    else
      parse_subcomponentsGo sch cd (i + 1) rest

/-- Embedding of `parse_subcomponents` (parser.py 361-411). -/
def parse_subcomponents (sch : Schema) (enc : EncodingChars) (text : List Char)
    (cd : Option String) : List SubComponent :=
  parse_subcomponentsGo sch cd 0 (splitOn enc.SUBCOMPONENT text)

/-- Final part of `parse_component` (parser.py 354-359): decode the
children and apply the quiet-policy datatype fallback. -/
def compFinish (sch : Schema) (enc : EncodingChars) (vl : VL) (text : List Char)
    (c0 : Option String × Option String) : Component :=
  if Validator.is_quiet vl && isBaseOpt sch c0.2 &&
      decide (1 < (parse_subcomponents sch enc text c0.2).length) then
    ⟨c0.1, none, parse_subcomponents sch enc text c0.2⟩
  else
    ⟨c0.1, c0.2, parse_subcomponents sch enc text c0.2⟩

/-- Embedding of `parse_component` (parser.py 309-359): the constructor
failure is re-raised under strict policy and otherwise replaced by the
untyped fallback node. -/
def parse_component (sch : Schema) (enc : EncodingChars) (vl : VL) (text : List Char)
    (name datatype : Option String) : Except Unit Component :=
  match compNew sch name datatype with
  | .error _ =>
    if Validator.is_strict vl then .error ()
    else .ok (compFinish sch enc vl text (compFallback datatype))
  | .ok c0 => .ok (compFinish sch enc vl text c0)

/-- Name and datatype given to the component at 0-based index `i`
(parser.py 294-303). -/
def compSlotName (sch : Schema) (fdt : Option String) (i : Nat) :
    Option String × Option String :=
  if isBaseOpt sch fdt then (none, fdt)
  else if fdt = none ∨ fdt = some "varies" then
    (some ("VARIES_" ++ toString (i + 1)), none)
  else
    (some ((fdt.getD "") ++ "_" ++ toString (i + 1)), none)

/-- Loop body of `parse_components` (parser.py 293-307) over the split
pieces, carrying the 0-based index. -/
def parse_componentsGo (sch : Schema) (enc : EncodingChars) (vl : VL) (fdt : Option String) :
    Nat → List (List Char) → Except Unit (List Component)
  | _, [] => .ok []
  | i, comp :: rest =>
    if pyStrip comp ≠ [] ∨ (compSlotName sch fdt i).1 = none ∨
        strStarts "VARIES_" ((compSlotName sch fdt i).1.getD "") = true then
      match parse_component sch enc vl comp (compSlotName sch fdt i).1
          (compSlotName sch fdt i).2 with
      | .error e => .error e
      | .ok c =>
        match parse_componentsGo sch enc vl fdt (i + 1) rest with
        | .error e => .error e
        | .ok cs => .ok (c :: cs)
    else
      parse_componentsGo sch enc vl fdt (i + 1) rest

/-- Embedding of `parse_components` (parser.py 261-307). -/
def parse_components (sch : Schema) (enc : EncodingChars) (vl : VL) (text : List Char)
    (fdt : Option String) : Except Unit (List Component) :=
  parse_componentsGo sch enc vl fdt 0 (splitOn enc.COMPONENT text)

/-- Embedding of `parse_field` (parser.py 197-259).  The `InvalidName` of
the constructor is always caught (parser.py 241-246): with `force_varies`
the varies reference is used, otherwise the unnamed fallback.  For the
names MSH_1 and MSH_2 the raw text becomes one ST sub-component inside one
ST component (parser.py 248-252); every other field decodes its components
and applies the quiet-policy datatype fallback (parser.py 254-258). -/
def fieldF0 (sch : Schema) (name : Option String) (fv : Bool) :
    Option String × Option String :=
  match fieldNew sch name with
  | .ok f => f
  | .error _ => if fv then fieldVaries name else fieldFallback

/-- Quiet-policy datatype fallback of `parse_field` (parser.py 254-258). -/
def fieldFinish (sch : Schema) (vl : VL) (f0 : Option String × Option String)
    (children : List Component) : Field :=
  if Validator.is_quiet vl && isBaseOpt sch f0.2 && decide (1 < children.length) then
    ⟨f0.1, none, children⟩
  else
    ⟨f0.1, f0.2, children⟩

def parse_field (sch : Schema) (enc : EncodingChars) (vl : VL) (text : List Char)
    (name : Option String) (fv : Bool) : Except Unit Field :=
  if name = some "MSH_1" ∨ name = some "MSH_2" then
    .ok ⟨(fieldF0 sch name fv).1, (fieldF0 sch name fv).2,
      [⟨none, some "ST", [⟨none, some "ST", text⟩]⟩]⟩
  else
    match parse_components sch enc vl text (fieldF0 sch name fv).2 with
    | .error e => .error e
    | .ok children => .ok (fieldFinish sch vl (fieldF0 sch name fv) children)

/-- One repetition split of a non-MSH_2 field slot (parser.py 191-192):
each piece between repetition separators becomes its own field node. -/
def parse_fieldReps (sch : Schema) (enc : EncodingChars) (vl : VL) (name : Option String)
    (fv : Bool) : List (List Char) → Except Unit (List Field)
  | [] => .ok []
  | r :: rs =>
    match parse_field sch enc vl r name fv with
    | .error e => .error e
    | .ok fl =>
      match parse_fieldReps sch enc vl name fv rs with
      | .error e => .error e
      | .ok fs => .ok (fl :: fs)

/-- Contribution of the field slot at 0-based index `i` to the output of
`parse_fields` (parser.py 185-194): non-empty slots (or slots of an
unknown segment) are decoded, the MSH_2 slot skips the repetition split,
an empty MSH_1 slot synthesizes the field-separator field, and any other
empty named slot is dropped. -/
def fieldSlotName (pfx : Option String) (i : Nat) : Option String :=
  pfx.map (fun p => p ++ "_" ++ toString (i + 1))

def fieldSlot (sch : Schema) (enc : EncodingChars) (vl : VL) (pfx : Option String)
    (fv : Bool) (i : Nat) (f : List Char) : Except Unit (List Field) :=
  if pyStrip f ≠ [] ∨ fieldSlotName pfx i = none then
    if fieldSlotName pfx i = some "MSH_2" then
      match parse_field sch enc vl f (fieldSlotName pfx i) false with
      | .error e => .error e
      | .ok fl => .ok [fl]
    else
      parse_fieldReps sch enc vl (fieldSlotName pfx i) fv (splitOn enc.REPETITION f)
  else if fieldSlotName pfx i = some "MSH_1" then
    match parse_field sch enc vl [enc.FIELD] (fieldSlotName pfx i) false with
    | .error e => .error e
    | .ok fl => .ok [fl]
  else
    .ok []

/-- Loop of `parse_fields` over the split slots. -/
def parse_fieldsGo (sch : Schema) (enc : EncodingChars) (vl : VL) (pfx : Option String)
    (fv : Bool) : Nat → List (List Char) → Except Unit (List Field)
  | _, [] => .ok []
  | i, f :: rest =>
    match fieldSlot sch enc vl pfx fv i f with
    | .error e => .error e
    | .ok a =>
      match parse_fieldsGo sch enc vl pfx fv (i + 1) rest with
      | .error e => .error e
      | .ok b => .ok (a ++ b)

/-- Embedding of `parse_fields` (parser.py 140-195). -/
def parse_fields (sch : Schema) (enc : EncodingChars) (vl : VL) (text : List Char)
    (pfx : Option String) (fv : Bool) : Except Unit (List Field) :=
  parse_fieldsGo sch enc vl pfx fv 0 (splitOn enc.FIELD (stripCR text))

end hl7

namespace hl7

/-- Standard ER7 encoding characters, for concrete instances. -/
def encD : EncodingChars := ⟨ '|', '^', '&', '~', '\\', '\r', '\r' ⟩

/-- A schema oracle that resolves no name at all. -/
def schNone : Schema := ⟨fun _ => none, fun _ => none, fun _ => false⟩

/-- A schema oracle resolving only the dynamic VARIES component names, as
the real schema does for varies elements. -/
def schVar : Schema :=
  ⟨fun _ => none, fun n => if strStarts "VARIES_" n then some none else none,
   fun d => d = "ST"⟩

/-- A schema oracle with a single ST field AB_1. -/
def schST : Schema :=
  ⟨fun n => if n = "AB_1" then some (some "ST") else none, fun _ => none,
   fun d => d = "ST"⟩

theorem parse_component_ok_of_not_strict (sch : Schema) (enc : EncodingChars) (vl : VL)
    (text : List Char) (name dt : Option String) (h : Validator.is_strict vl = false) :
    ∃ c, parse_component sch enc vl text name dt = .ok c := by
  cases hcn : compNew sch name dt with
  | error e =>
    refine ⟨compFinish sch enc vl text (compFallback dt), ?_⟩
    unfold parse_component
    rw [hcn, h]
    rfl
  | ok c0 =>
    refine ⟨compFinish sch enc vl text c0, ?_⟩
    unfold parse_component
    rw [hcn]

theorem parse_componentsGo_ok_of_not_strict (sch : Schema) (enc : EncodingChars) (vl : VL)
    (fdt : Option String) (h : Validator.is_strict vl = false) :
    ∀ (parts : List (List Char)) (i : Nat),
      ∃ cs, parse_componentsGo sch enc vl fdt i parts = .ok cs := by
  intro parts
  induction parts with
  | nil => intro i; exact ⟨[], rfl⟩
  | cons p rest ih =>
    intro i
    obtain ⟨c, hc⟩ := parse_component_ok_of_not_strict sch enc vl p
      (compSlotName sch fdt i).1 (compSlotName sch fdt i).2 h
    obtain ⟨cs, hcs⟩ := ih (i + 1)
    by_cases hk : pyStrip p ≠ [] ∨ (compSlotName sch fdt i).1 = none ∨
        strStarts "VARIES_" ((compSlotName sch fdt i).1.getD "") = true
    · refine ⟨c :: cs, ?_⟩
      unfold parse_componentsGo
      rw [if_pos hk, hc, hcs]
    · refine ⟨cs, ?_⟩
      unfold parse_componentsGo
      rw [if_neg hk]
      exact hcs

theorem parse_field_ok_of_not_strict (sch : Schema) (enc : EncodingChars) (vl : VL)
    (text : List Char) (name : Option String) (fv : Bool)
    (h : Validator.is_strict vl = false) :
    ∃ fl, parse_field sch enc vl text name fv = .ok fl := by
  by_cases hn : name = some "MSH_1" ∨ name = some "MSH_2"
  · refine ⟨⟨(fieldF0 sch name fv).1, (fieldF0 sch name fv).2,
      [⟨none, some "ST", [⟨none, some "ST", text⟩]⟩]⟩, ?_⟩
    unfold parse_field
    rw [if_pos hn]
  · obtain ⟨cs, hcs⟩ := parse_componentsGo_ok_of_not_strict sch enc vl
      (fieldF0 sch name fv).2 h (splitOn enc.COMPONENT text) 0
    have hpc : parse_components sch enc vl text (fieldF0 sch name fv).2 = .ok cs := hcs
    refine ⟨fieldFinish sch vl (fieldF0 sch name fv) cs, ?_⟩
    unfold parse_field
    rw [if_neg hn, hpc]

theorem fieldFinish_name (sch : Schema) (vl : VL) (f0 : Option String × Option String)
    (cs : List Component) : (fieldFinish sch vl f0 cs).name = f0.1 := by
  unfold fieldFinish
  split <;> rfl

theorem parse_field_none_name (sch : Schema) (enc : EncodingChars) (vl : VL)
    (text : List Char) (fv : Bool) (fl : Field)
    (h : parse_field sch enc vl text none fv = .ok fl) : fl.name = none := by
  unfold parse_field at h
  rw [if_neg (by simp)] at h
  cases hpc : parse_components sch enc vl text (fieldF0 sch none fv).2 with
  | error e => rw [hpc] at h; simp at h
  | ok children =>
    rw [hpc] at h
    simp only [Except.ok.injEq] at h
    rw [← h, fieldFinish_name]
    rfl

theorem parse_fieldReps_none (sch : Schema) (enc : EncodingChars) (vl : VL) (fv : Bool) :
    ∀ (reps : List (List Char)) (fs : List Field),
      parse_fieldReps sch enc vl none fv reps = .ok fs →
      fs.length = reps.length ∧ ∀ fl ∈ fs, fl.name = none := by
  intro reps
  induction reps with
  | nil =>
    intro fs h
    simp only [parse_fieldReps, Except.ok.injEq] at h
    subst h
    simp
  | cons r rs ih =>
    intro fs h
    unfold parse_fieldReps at h
    cases hpf : parse_field sch enc vl r none fv with
    | error e => rw [hpf] at h; simp at h
    | ok fl =>
      rw [hpf] at h
      cases hrest : parse_fieldReps sch enc vl none fv rs with
      | error e => rw [hrest] at h; simp at h
      | ok fs' =>
        rw [hrest] at h
        simp only [Except.ok.injEq] at h
        obtain ⟨hlen, hnames⟩ := ih fs' hrest
        subst h
        refine ⟨by simp [hlen], ?_⟩
        intro x hx
        rcases List.mem_cons.1 hx with h1 | h1
        · subst h1; exact parse_field_none_name sch enc vl r fv x hpf
        · exact hnames x h1

theorem parse_fieldReps_ok_of_not_strict (sch : Schema) (enc : EncodingChars) (vl : VL)
    (name : Option String) (fv : Bool) (h : Validator.is_strict vl = false) :
    ∀ reps : List (List Char), ∃ fs, parse_fieldReps sch enc vl name fv reps = .ok fs := by
  intro reps
  induction reps with
  | nil => exact ⟨[], rfl⟩
  | cons r rs ih =>
    obtain ⟨fl, hfl⟩ := parse_field_ok_of_not_strict sch enc vl r name fv h
    obtain ⟨fs, hfs⟩ := ih
    refine ⟨fl :: fs, ?_⟩
    unfold parse_fieldReps
    rw [hfl, hfs]

/-- The MSH_1 synthesis of `parse_fields` (parser.py 193-194): an empty
first slot of the control segment yields one field holding the
field-separator character as its single ST leaf. -/
theorem fieldSlot_msh1_empty (sch : Schema) (enc : EncodingChars) (vl : VL) (fv : Bool)
    (f : List Char) (h : pyStrip f = []) :
    ∃ nm dt, fieldSlot sch enc vl (some "MSH") fv 0 f =
      .ok [⟨nm, dt, [⟨none, some "ST", [⟨none, some "ST", [enc.FIELD]⟩]⟩]⟩] := by
  have hname : fieldSlotName (some "MSH") 0 = some "MSH_1" := rfl
  cases hfn : sch.fieldDT "MSH_1" with
  | none =>
    refine ⟨none, none, ?_⟩
    unfold fieldSlot
    rw [hname, if_neg (by simp [h]), if_pos rfl]
    have hf0 : fieldF0 sch (some "MSH_1") false = (none, none) := by
      simp [fieldF0, fieldNew, hfn, fieldFallback]
    unfold parse_field
    rw [if_pos (Or.inl rfl), hf0]
  | some dt =>
    refine ⟨some "MSH_1", dt, ?_⟩
    unfold fieldSlot
    rw [hname, if_neg (by simp [h]), if_pos rfl]
    have hf0 : fieldF0 sch (some "MSH_1") false = (some "MSH_1", dt) := by
      simp [fieldF0, fieldNew, hfn]
    unfold parse_field
    rw [if_pos (Or.inl rfl), hf0]

/-- MSH_2 is stored unsplit by `parse_field` (parser.py 248-252). -/
theorem parse_field_msh2 (sch : Schema) (enc : EncodingChars) (vl : VL)
    (text : List Char) (fv : Bool) :
    ∃ nm dt, parse_field sch enc vl text (some "MSH_2") fv =
      .ok ⟨nm, dt, [⟨none, some "ST", [⟨none, some "ST", text⟩]⟩]⟩ := by
  cases hfn : sch.fieldDT "MSH_2" with
  | none =>
    cases fv with
    | false =>
      refine ⟨none, none, ?_⟩
      unfold parse_field
      rw [if_pos (Or.inr rfl),
        show fieldF0 sch (some "MSH_2") false = (none, none) from by
          simp [fieldF0, fieldNew, hfn, fieldFallback]]
    | true =>
      refine ⟨some "MSH_2", some "varies", ?_⟩
      unfold parse_field
      rw [if_pos (Or.inr rfl),
        show fieldF0 sch (some "MSH_2") true = (some "MSH_2", some "varies") from by
          simp [fieldF0, fieldNew, hfn, fieldVaries]]
  | some dt =>
    refine ⟨some "MSH_2", dt, ?_⟩
    unfold parse_field
    rw [if_pos (Or.inr rfl),
      show fieldF0 sch (some "MSH_2") fv = (some "MSH_2", dt) from by
        simp [fieldF0, fieldNew, hfn]]

/-- C4 counterexample: under strict policy an unresolvable field name does
not abort `parse_field`; the name error of the constructor is swallowed
(parser.py 239-246) and an unnamed fallback field is produced. -/
theorem parse_field_strict_swallows_name_error :
    parse_field schVar encD VL.strict [ 'a', 'b', 'c' ] (some "PID_1") false =
      .ok ⟨none, none,
        [⟨some "VARIES_1", none, [⟨none, some "ST", [ 'a', 'b', 'c' ]⟩]⟩]⟩ := by
  rfl

/-- C4 (amended).  Under strict policy a name the schema cannot resolve
aborts decoding at the component level: `parse_component` re-raises the
name error; under non-strict policy it instead yields the unnamed/untyped
fallback node.  At the field level `parse_field` swallows the name error
regardless of policy and proceeds exactly as for an unnamed field. -/
theorem name_error_policy_behavior :
    (∀ (sch : Schema) (enc : EncodingChars) (vl : VL) (text : List Char) (n : String)
      (dt : Option String), Validator.is_strict vl = true → sch.compDT n = none →
      parse_component sch enc vl text (some n) dt = .error ())
    ∧ (∀ (sch : Schema) (enc : EncodingChars) (vl : VL) (text : List Char) (n : String)
      (dt : Option String), Validator.is_strict vl = false → sch.compDT n = none →
      parse_component sch enc vl text (some n) dt =
        .ok (compFinish sch enc vl text (compFallback dt))
      ∧ (compFinish sch enc vl text (compFallback dt)).name = none)
    ∧ (∀ (sch : Schema) (enc : EncodingChars) (vl : VL) (text : List Char) (n : String),
      sch.fieldDT n = none → n ≠ "MSH_1" → n ≠ "MSH_2" →
      parse_field sch enc vl text (some n) false =
        parse_field sch enc vl text none false) := by
  refine ⟨?_, ?_, ?_⟩
  · intro sch enc vl text n dt hs hdt
    unfold parse_component
    rw [show compNew sch (some n) dt = .error () from by simp [compNew, hdt], hs]
    rfl
  · intro sch enc vl text n dt hs hdt
    refine ⟨?_, ?_⟩
    · unfold parse_component
      rw [show compNew sch (some n) dt = .error () from by simp [compNew, hdt], hs]
      rfl
    · unfold compFinish
      split <;> rfl
  · intro sch enc vl text n hdt h1 h2
    have hf0 : fieldF0 sch (some n) false = fieldF0 sch none false := by
      simp [fieldF0, fieldNew, hdt, fieldFallback]
    unfold parse_field
    rw [if_neg (by simp [h1, h2]), if_neg (by simp), hf0]

/-- Witness for the amended C4 at a concrete strict failure. -/
theorem name_error_policy_behavior_witness :
    parse_component schNone encD VL.strict [] (some "CX_1") none = .error () :=
  name_error_policy_behavior.1 schNone encD VL.strict [] "CX_1" none (by rfl) (by rfl)

/-- C6.  With a known name prefix an empty slot is suppressed unless it is
MSH_1, which is synthesized holding the field separator; without a prefix
every slot, empty included, yields unnamed fields, one per repetition. -/
theorem parse_fields_empty_slot_behavior :
    (∀ (sch : Schema) (enc : EncodingChars) (vl : VL) (fv : Bool) (p : String) (i : Nat)
      (f : List Char), pyStrip f = [] → p ++ "_" ++ toString (i + 1) ≠ "MSH_1" →
      fieldSlot sch enc vl (some p) fv i f = .ok [])
    ∧ (∀ (sch : Schema) (enc : EncodingChars) (vl : VL) (fv : Bool) (f : List Char),
      pyStrip f = [] →
      ∃ nm dt, fieldSlot sch enc vl (some "MSH") fv 0 f =
        .ok [⟨nm, dt, [⟨none, some "ST", [⟨none, some "ST", [enc.FIELD]⟩]⟩]⟩])
    ∧ (∀ (sch : Schema) (enc : EncodingChars) (vl : VL) (fv : Bool) (i : Nat)
      (f : List Char) (fs : List Field), fieldSlot sch enc vl none fv i f = .ok fs →
      fs.length = (splitOn enc.REPETITION f).length ∧ ∀ fl ∈ fs, fl.name = none)
    ∧ (∀ (sch : Schema) (enc : EncodingChars) (vl : VL) (fv : Bool) (i : Nat)
      (f : List Char), Validator.is_strict vl = false →
      ∃ fs, fieldSlot sch enc vl none fv i f = .ok fs) := by
  refine ⟨?_, ?_, ?_, ?_⟩
  · intro sch enc vl fv p i f h hn
    unfold fieldSlot
    rw [show fieldSlotName (some p) i = some (p ++ "_" ++ toString (i + 1)) from rfl,
      if_neg (by simp [h]), if_neg (by simp [hn])]
  · intro sch enc vl fv f h
    exact fieldSlot_msh1_empty sch enc vl fv f h
  · intro sch enc vl fv i f fs h
    unfold fieldSlot at h
    rw [show fieldSlotName none i = none from rfl, if_pos (Or.inr rfl),
      if_neg (by simp)] at h
    exact parse_fieldReps_none sch enc vl fv _ fs h
  · intro sch enc vl fv i f h
    obtain ⟨fs, hfs⟩ := parse_fieldReps_ok_of_not_strict sch enc vl none fv h
      (splitOn enc.REPETITION f)
    refine ⟨fs, ?_⟩
    unfold fieldSlot
    rw [show fieldSlotName none i = none from rfl, if_pos (Or.inr rfl),
      if_neg (by simp)]
    exact hfs

/-- Witness for C6: an empty NK1_3 slot is suppressed. -/
theorem parse_fields_empty_slot_behavior_witness :
    fieldSlot schNone encD VL.tolerant (some "NK1") false 2 [] = .ok [] :=
  parse_fields_empty_slot_behavior.1 schNone encD VL.tolerant false "NK1" 2 []
    (by rfl) (by decide)

/-- C7.  MSH_2 becomes a single unsplit ST leaf holding the raw text, with
no repetition split applied by `parse_fields`; MSH_1 holds the literal
field separator as a single leaf. -/
theorem msh_fields_unsplit :
    (∀ (sch : Schema) (enc : EncodingChars) (vl : VL) (text : List Char) (fv : Bool),
      ∃ nm dt, parse_field sch enc vl text (some "MSH_2") fv =
        .ok ⟨nm, dt, [⟨none, some "ST", [⟨none, some "ST", text⟩]⟩]⟩)
    ∧ (∀ (sch : Schema) (enc : EncodingChars) (vl : VL) (fv : Bool) (f : List Char),
      pyStrip f ≠ [] →
      ∃ nm dt, fieldSlot sch enc vl (some "MSH") fv 1 f =
        .ok [⟨nm, dt, [⟨none, some "ST", [⟨none, some "ST", f⟩]⟩]⟩])
    ∧ (∀ (sch : Schema) (enc : EncodingChars) (vl : VL) (fv : Bool) (f : List Char),
      pyStrip f = [] →
      ∃ nm dt, fieldSlot sch enc vl (some "MSH") fv 0 f =
        .ok [⟨nm, dt, [⟨none, some "ST", [⟨none, some "ST", [enc.FIELD]⟩]⟩]⟩]) := by
  refine ⟨?_, ?_, ?_⟩
  · intro sch enc vl text fv
    exact parse_field_msh2 sch enc vl text fv
  · intro sch enc vl fv f h
    obtain ⟨nm, dt, hmsh2⟩ := parse_field_msh2 sch enc vl f false
    refine ⟨nm, dt, ?_⟩
    unfold fieldSlot
    rw [show fieldSlotName (some "MSH") 1 = some "MSH_2" from rfl,
      if_pos (Or.inl h), if_pos rfl, hmsh2]
  · intro sch enc vl fv f h
    exact fieldSlot_msh1_empty sch enc vl fv f h

/-- Witness for C7 on a slot full of separator characters. -/
theorem msh_fields_unsplit_witness :
    ∃ nm dt, fieldSlot schNone encD VL.tolerant (some "MSH") false 1 [ '^', '~', '&' ] =
      .ok [⟨nm, dt, [⟨none, some "ST", [⟨none, some "ST", [ '^', '~', '&' ]⟩]⟩]⟩] :=
  msh_fields_unsplit.2.1 schNone encD VL.tolerant false [ '^', '~', '&' ] (by decide)

/-- C8.  Under quiet policy, a field or component whose declared datatype
is a base datatype but whose decode produced more than one child gets its
datatype cleared to None while keeping the children unchanged
(parser.py 254-258 and 354-358). -/
theorem quiet_base_datatype_cleared :
    (∀ (sch : Schema) (enc : EncodingChars) (vl : VL) (text : List Char)
      (name : Option String) (nm dt0 : Option String) (cs : List Component),
      Validator.is_quiet vl = true →
      fieldNew sch name = .ok (nm, dt0) →
      name ≠ some "MSH_1" → name ≠ some "MSH_2" →
      parse_components sch enc vl text dt0 = .ok cs →
      isBaseOpt sch dt0 = true → 1 < cs.length →
      parse_field sch enc vl text name false = .ok ⟨nm, none, cs⟩)
    ∧ (∀ (sch : Schema) (enc : EncodingChars) (vl : VL) (text : List Char)
      (name dt : Option String) (nm dt0 : Option String),
      Validator.is_quiet vl = true →
      compNew sch name dt = .ok (nm, dt0) →
      isBaseOpt sch dt0 = true →
      1 < (parse_subcomponents sch enc text dt0).length →
      parse_component sch enc vl text name dt =
        .ok ⟨nm, none, parse_subcomponents sch enc text dt0⟩) := by
  constructor
  · intro sch enc vl text name nm dt0 cs hq hfn h1 h2 hpc hb hlen
    have hf0 : fieldF0 sch name false = (nm, dt0) := by
      unfold fieldF0
      rw [hfn]
    have hpc' : parse_components sch enc vl text (fieldF0 sch name false).2 = .ok cs := by
      rw [hf0]
      exact hpc
    unfold parse_field
    rw [if_neg (by simp [h1, h2]), hpc']
    show Except.ok (fieldFinish sch vl (fieldF0 sch name false) cs) = _
    rw [hf0]
    unfold fieldFinish
    rw [if_pos (by simp [hq, hb, hlen])]
  · intro sch enc vl text name dt nm dt0 hq hcn hb hlen
    unfold parse_component
    rw [hcn]
    show Except.ok (compFinish sch enc vl text (nm, dt0)) = _
    unfold compFinish
    rw [if_pos (by simp [hq, hb, hlen])]

/-- Witness for C8: an over-split ST field loses its declared datatype. -/
theorem quiet_base_datatype_cleared_witness :
    parse_field schST encD VL.quiet [ 'a', '^', 'b' ] (some "AB_1") false =
      .ok ⟨some "AB_1", none,
        [⟨none, some "ST", [⟨none, some "ST", [ 'a' ]⟩]⟩,
         ⟨none, some "ST", [⟨none, some "ST", [ 'b' ]⟩]⟩]⟩ :=
  quiet_base_datatype_cleared.1 schST encD VL.quiet [ 'a', '^', 'b' ] (some "AB_1")
    (some "AB_1") (some "ST")
    [⟨none, some "ST", [⟨none, some "ST", [ 'a' ]⟩]⟩,
     ⟨none, some "ST", [⟨none, some "ST", [ 'b' ]⟩]⟩]
    (by rfl) (by rfl) (by decide) (by decide) (by rfl) (by rfl) (by decide)

end hl7

namespace hl7

/-- Tree node produced by the structure assigner: a decoded segment
(name plus its position in the input list, which identifies it uniquely)
or a group with its ordered children. -/
inductive Node where
  | seg : String → Nat → Node
  | grp : String → List Node → Node

/-- Ordered child-slot list of one schema structure, as returned by the
external `ElementFinder.get_structure`: each slot carries its name, its
cardinality maximum (`repetitions[name][1]`), and, for group slots, the
sub-structure that `get_structure` returns for the group. -/
inductive Struct where
  | nil : Struct
  | seg : String → Nat → Struct → Struct
  | grp : String → Nat → Struct → Struct → Struct

/-- Position of a name among the slots of a structure: Python
`structure['structure_by_name'].keys().index(name)` (parser.py 553),
`none` modelling the `ValueError`. -/
def slotIdx : Struct → String → Option Nat
  | .nil, _ => none
  | .seg n _ rest, q => if n = q then some 0 else (slotIdx rest q).map (· + 1)
  | .grp n _ _ rest, q => if n = q then some 0 else (slotIdx rest q).map (· + 1)

/-- Cardinality maximum of the named slot: Python
`structure['repetitions'][name][1]` (parser.py 575). -/
def slotMax : Struct → String → Option Nat
  | .nil, _ => none
  | .seg n m rest, q => if n = q then some m else slotMax rest q
  | .grp n m _ rest, q => if n = q then some m else slotMax rest q

/-- One level of the search state `search_data` (parser.py 516): the
parent node at this level (`gname = none` for the message root), the
children of that parent that are already final, the level's structure and
its last-matched slot index (initially -1). -/
structure Frame where
  gname : Option String
  closed : List Node
  st : Struct
  idx : Int

/-- The mutable search state: the message children already final (only
populated once the root frame has been popped) and the frame stack,
innermost frame first; `parents`, `structures` and `indexes` of
parser.py 516 are the three components of the frames. -/
structure GState where
  closedMsg : List Node
  stack : List Frame

/-- Embedding of `_go_back` (parser.py 531-535).  Python pops the three
lists; in the zipper embedding popping a group frame also materializes the
group node into its parent's child list — in the Python original the group
object was appended to the parent when it was discovered
(`group.parent = ...`, parser.py 568) and the parent receives no further
children while an inner frame is open, so appending at pop time yields the
same child order.  A popped group frame with no frame below cannot occur
(the bottom frame is always the message root); it is sent to the closed
message children so that popping never loses nodes. -/
def popState : GState → GState
  | ⟨cm, []⟩ => ⟨cm, []⟩
  | ⟨cm, f :: rest⟩ =>
    match f.gname with
    | none => ⟨cm ++ f.closed, rest⟩
    | some n =>
      match rest with
      | [] => ⟨cm ++ [Node.grp n f.closed], []⟩
      | g :: rs => ⟨cm, ⟨g.gname, g.closed ++ [Node.grp n f.closed], g.st, g.idx⟩ :: rs⟩

/-- Candidate-group loop of `_find_group` (parser.py 555-573) under fresh
frames: walk the slots of the structure at offset `j`; for each group
slot, speculatively open it and try to place the segment by direct name
match (parser.py 553) or recursively inside the group's own group slots.
On success the new frames (innermost first) are returned — they stay on
the stack, each recording the slot index that matched below it; on failure
the speculative frame is discarded (`_go_back`, parser.py 573), which in
this functional embedding simply means it is never materialized.  A fresh
frame has last-matched index -1, so the pop-and-retry branch of
parser.py 575-579 is unreachable inside the speculation. -/
def descendG (cn : String) (cid : Nat) : Struct → Nat → Option (Nat × List Frame)
  | .nil, _ => none
  | .seg _ _ rest, j => descendG cn cid rest (j + 1)
  | .grp g _ sub rest, j =>
    match slotIdx sub cn with
    | some k => some (j, [⟨some g, [Node.seg cn cid], sub, (k : Int)⟩])
    | none =>
      match descendG cn cid sub 0 with
      | some (j', frames) => some (j, frames ++ [⟨some g, [], sub, (j' : Int)⟩])
      | none => descendG cn cid rest (j + 1)

/-- Result of one `_find_group` call: the returned slot index, the
`ValueError`-driven failure (-1), or an uncaught Python `IndexError` from
reading `search_data['indexes'][-1]` on an empty stack (parser.py 550). -/
inductive FindRes where
  | found : Nat → FindRes
  | notFound : FindRes
  | indexError : FindRes
deriving DecidableEq

/-- Embedding of `_find_group` (parser.py 537-583), with explicit fuel so
the recursion is structural; `find_group` below instantiates the fuel with
the stack height, which bounds the pop-and-retry chain (each retry first
pops one frame), so the fuel case `0` paired with a non-empty stack is
unreachable.  On a direct name match at slot `k`: if `k` is at most the
frame's last-matched index and the slot's cardinality maximum is 1, pop
the frame and retry one level up (parser.py 575-579); otherwise record `k`
and attach the segment to this frame's parent (parser.py 580-582).
Without a direct match, try the candidate groups (parser.py 555-573). -/
def find_groupGo (cn : String) (cid : Nat) : Nat → GState → FindRes × GState
  | _, ⟨cm, []⟩ => (.indexError, ⟨cm, []⟩)
  | 0, s => (.indexError, s)
  | fuel + 1, ⟨cm, f :: rest⟩ =>
    match slotIdx f.st cn with
    | some k =>
      if (k : Int) ≤ f.idx ∧ slotMax f.st cn = some 1 then
        find_groupGo cn cid fuel (popState ⟨cm, f :: rest⟩)
      else
        (.found k, ⟨cm, ⟨f.gname, f.closed ++ [Node.seg cn cid], f.st, (k : Int)⟩ :: rest⟩)
    | none =>
      match descendG cn cid f.st 0 with
      | some (j, frames) =>
        (.found j, ⟨cm, frames ++ ⟨f.gname, f.closed, f.st, (j : Int)⟩ :: rest⟩)
      | none => (.notFound, ⟨cm, f :: rest⟩)

/-- One call of `_find_group` on the current search state. -/
def find_group (cn : String) (cid : Nat) (s : GState) : FindRes × GState :=
  find_groupGo cn cid s.stack.length s

/-- The per-segment retry loop of `create_groups` (parser.py 519-526):
at most `len(search_data['structures'])` attempts, each failed attempt
followed by `_go_back`. -/
def trySegment (cn : String) (cid : Nat) : Nat → GState → FindRes × GState
  | 0, s => (.notFound, s)
  | fuel + 1, s =>
    match find_group cn cid s with
    | (.found k, s') => (.found k, s')
    | (.indexError, s') => (.indexError, s')
    | (.notFound, s') => trySegment cn cid fuel (popState s')

/-- Per-segment processing of `create_groups`: the loop bound is the stack
height at loop entry (parser.py 520). -/
def processSegment (cn : String) (cid : Nat) (s : GState) : FindRes × GState :=
  trySegment cn cid s.stack.length s

/-- Main loop of `create_groups` (parser.py 518-529) over the decoded
segments, numbering them by input position; a segment that no level can
place is attached directly to the message (parser.py 528-529); an
uncaught `IndexError` aborts the whole call (`none`). -/
def create_groupsGo : List String → Nat → GState → Option GState
  | [], _, s => some s
  | c :: rest, i, s =>
    match processSegment c i s with
    | (.indexError, _) => none
    | (.found _, s') => create_groupsGo rest (i + 1) s'
    | (.notFound, s') =>
      create_groupsGo rest (i + 1) ⟨s'.closedMsg ++ [Node.seg c i], s'.stack⟩

/-- Close every frame still open when `create_groups` returns, reading the
final child list of the message out of the zipper. -/
def finalizeGo : Nat → GState → List Node
  | 0, s => s.closedMsg
  | fuel + 1, s =>
    match s.stack with
    | [] => s.closedMsg
    | _ :: _ => finalizeGo fuel (popState s)

/-- Final message children of a search state. -/
def finalize (s : GState) : List Node := finalizeGo s.stack.length s

/-- Embedding of `create_groups` (parser.py 502-529): initial state is one
frame for the message root with last-matched index -1 (parser.py 516);
the result is the message's final child list, or `none` when Python would
raise an uncaught `IndexError`. -/
def create_groups (st : Struct) (segs : List String) : Option (List Node) :=
  (create_groupsGo segs 0 ⟨[], [⟨none, [], st, -1⟩]⟩).map finalize

/-- Number of occurrences of the segment with input position `i` in a
forest of nodes. -/
def countNodes (i : Nat) : List Node → Nat
  | [] => 0
  | Node.seg _ j :: rest => (if j = i then 1 else 0) + countNodes i rest
  | Node.grp _ cs :: rest => countNodes i cs + countNodes i rest

/-- Occurrences inside the closed children of a stack of frames. -/
def countStack (i : Nat) : List Frame → Nat
  | [] => 0
  | f :: fs => countNodes i f.closed + countStack i fs

/-- Occurrences anywhere in a search state. -/
def countState (i : Nat) (s : GState) : Nat :=
  countNodes i s.closedMsg + countStack i s.stack

theorem popState_stack_length (s : GState) :
    (popState s).stack.length = s.stack.length - 1 := by
  rcases s with ⟨cm, _ | ⟨f, rest⟩⟩
  · simp [popState]
  · rcases f with ⟨gn, cl, st, ix⟩
    cases gn with
    | none => simp [popState]
    | some n =>
      cases rest with
      | nil => simp [popState]
      | cons g rs => simp [popState]

theorem countNodes_append (i : Nat) (a b : List Node) :
    countNodes i (a ++ b) = countNodes i a + countNodes i b := by
  induction a with
  | nil => simp [countNodes]
  | cons h t ih => cases h <;> simp [countNodes, ih] <;> omega

theorem countStack_append (i : Nat) (a b : List Frame) :
    countStack i (a ++ b) = countStack i a + countStack i b := by
  induction a with
  | nil => simp [countStack]
  | cons f t ih => simp [countStack, ih] ; omega

theorem popState_count (i : Nat) (s : GState) :
    countState i (popState s) = countState i s := by
  rcases s with ⟨cm, _ | ⟨f, rest⟩⟩
  · rfl
  · rcases f with ⟨gn, cl, st, ix⟩
    cases gn with
    | none =>
      simp [popState, countState, countStack, countNodes_append]
      omega
    | some n =>
      cases rest with
      | nil =>
        simp [popState, countState, countStack, countNodes_append, countNodes]
      | cons g rs =>
        simp [popState, countState, countStack, countNodes_append, countNodes]
        omega

theorem descendG_count (cn : String) (cid : Nat) (i : Nat) :
    ∀ (st : Struct) (j k : Nat) (frames : List Frame),
      descendG cn cid st j = some (k, frames) →
      countStack i frames = if cid = i then 1 else 0 := by
  intro st
  induction st with
  | nil => intro j k frames h; simp [descendG] at h
  | seg n m rest ih =>
    intro j k frames h
    rw [descendG] at h
    exact ih (j + 1) k frames h
  | grp g m sub rest ihsub ihrest =>
    intro j k frames h
    rw [descendG] at h
    cases hsi : slotIdx sub cn with
    | some k0 =>
      rw [hsi] at h
      simp only [Option.some.injEq, Prod.mk.injEq] at h
      rw [← h.2]
      simp [countStack, countNodes]
    | none =>
      rw [hsi] at h
      cases hds : descendG cn cid sub 0 with
      | some pr =>
        rcases pr with ⟨j0, fr0⟩
        rw [hds] at h
        simp only [Option.some.injEq, Prod.mk.injEq] at h
        rw [← h.2, countStack_append]
        rw [ihsub 0 j0 fr0 hds]
        simp [countStack, countNodes]
      | none =>
        rw [hds] at h
        exact ihrest (j + 1) k frames h

theorem find_groupGo_count (cn : String) (cid : Nat) (i : Nat) :
    ∀ (fuel : Nat) (s : GState) (res : FindRes) (s' : GState),
      find_groupGo cn cid fuel s = (res, s') →
      countState i s' = countState i s +
        (match res with
         | .found _ => if cid = i then 1 else 0
         | _ => 0) := by
  intro fuel
  induction fuel with
  | zero =>
    intro s res s' h
    rcases s with ⟨cm, _ | ⟨f, rest⟩⟩ <;>
      · simp only [find_groupGo] at h
        injection h with h1 h2
        subst h1
        subst h2
        simp
  | succ fuel ih =>
    intro s res s' h
    rcases s with ⟨cm, _ | ⟨f, rest⟩⟩
    · simp only [find_groupGo] at h
      injection h with h1 h2
      subst h1
      subst h2
      simp
    · simp only [find_groupGo] at h
      split at h
      · rename_i k hsi
        split at h
        · have hrec := ih (popState ⟨cm, f :: rest⟩) res s' h
          rw [hrec, popState_count]
        · injection h with h1 h2
          subst h1
          subst h2
          simp [countState, countStack, countNodes_append, countNodes]
          omega
      · rename_i hsi
        split at h
        · rename_i j frames hds
          injection h with h1 h2
          subst h1
          subst h2
          have hdc := descendG_count cn cid i f.st 0 j frames hds
          simp [countState, countStack_append, countStack, hdc]
          omega
        · injection h with h1 h2
          subst h1
          subst h2
          simp

theorem trySegment_count (cn : String) (cid : Nat) (i : Nat) :
    ∀ (fuel : Nat) (s : GState) (res : FindRes) (s' : GState),
      trySegment cn cid fuel s = (res, s') →
      countState i s' = countState i s +
        (match res with
         | .found _ => if cid = i then 1 else 0
         | _ => 0) := by
  intro fuel
  induction fuel with
  | zero =>
    intro s res s' h
    simp only [trySegment] at h
    injection h with h1 h2
    subst h1
    subst h2
    simp
  | succ fuel ih =>
    intro s res s' h
    simp only [trySegment] at h
    split at h
    · rename_i k s1 hfg
      injection h with h1 h2
      subst h1
      subst h2
      simpa using find_groupGo_count cn cid i s.stack.length s _ _ hfg
    · rename_i s1 hfg
      injection h with h1 h2
      subst h1
      subst h2
      simpa using find_groupGo_count cn cid i s.stack.length s _ _ hfg
    · rename_i s1 hfg
      have hfgc := find_groupGo_count cn cid i s.stack.length s _ _ hfg
      have hrec := ih (popState s1) res s' h
      rw [hrec, popState_count]
      simp only [] at hfgc
      omega

theorem create_groupsGo_count :
    ∀ (segs : List String) (start : Nat) (s t : GState),
      create_groupsGo segs start s = some t →
      ∀ i, countState i t = countState i s +
        (if start ≤ i ∧ i < start + segs.length then 1 else 0) := by
  intro segs
  induction segs with
  | nil =>
    intro start s t h i
    simp only [create_groupsGo, Option.some.injEq] at h
    subst h
    rw [if_neg (by simp only [List.length_nil]; omega)]
    omega
  | cons c rest ih =>
    intro start s t h i
    simp only [create_groupsGo] at h
    rcases hps : processSegment c start s with ⟨res1, s1⟩
    have hts := trySegment_count c start i s.stack.length s res1 s1 hps
    cases res1 with
    | indexError =>
      rw [hps] at h
      simp at h
    | found k =>
      rw [hps] at h
      simp only [] at h
      have hrec := ih (start + 1) s1 t h i
      rw [hrec]
      simp only [] at hts
      rw [hts]
      simp only [List.length_cons]
      split_ifs <;> omega
    | notFound =>
      rw [hps] at h
      simp only [] at h
      have hrec := ih (start + 1) ⟨s1.closedMsg ++ [Node.seg c start], s1.stack⟩ t h i
      have hmid : countState i (⟨s1.closedMsg ++ [Node.seg c start], s1.stack⟩ : GState) =
          countState i s1 + (if start = i then 1 else 0) := by
        simp [countState, countNodes_append, countNodes]
        omega
      rw [hrec, hmid]
      simp only [] at hts
      rw [hts]
      simp only [List.length_cons]
      split_ifs <;> omega

theorem finalizeGo_count (i : Nat) :
    ∀ (fuel : Nat) (s : GState), s.stack.length ≤ fuel →
      countNodes i (finalizeGo fuel s) = countState i s := by
  intro fuel
  induction fuel with
  | zero =>
    intro s hlen
    rcases s with ⟨cm, _ | ⟨f, rest⟩⟩
    · simp [finalizeGo, countState, countStack]
    · simp at hlen
  | succ fuel ih =>
    intro s hlen
    rcases s with ⟨cm, _ | ⟨f, rest⟩⟩
    · simp [finalizeGo, countState, countStack]
    · rw [show finalizeGo (fuel + 1) ⟨cm, f :: rest⟩ =
          finalizeGo fuel (popState ⟨cm, f :: rest⟩) from by simp [finalizeGo]]
      rw [ih (popState ⟨cm, f :: rest⟩)
        (by rw [popState_stack_length]; simp at hlen ⊢; omega)]
      rw [popState_count]

/-- Message grammar with a non-repeatable MSH slot and a repeatable group
G containing a single non-repeatable PID slot. -/
def GPid : Struct := .seg "MSH" 1 (.grp "G" 3 (.seg "PID" 1 .nil) .nil)

/-- Message grammar consisting of a single non-repeatable MSH slot. -/
def GMsh : Struct := .seg "MSH" 1 .nil

/-- C1.  When a segment name matches slot `k` of the innermost frame with
`k` at most the frame's last-matched index and cardinality maximum 1,
`_find_group` pops the frame and retries one level up (parser.py 574-579);
concretely, two consecutive PID segments of a repeatable group are placed
in two sibling instances of that group, one PID each. -/
theorem nonrepeatable_slot_pops_frame :
    (∀ (cn : String) (cid : Nat) (cm : List Node) (f : Frame) (rest : List Frame)
      (k : Nat), slotIdx f.st cn = some k → (k : Int) ≤ f.idx →
      slotMax f.st cn = some 1 →
      find_group cn cid ⟨cm, f :: rest⟩ = find_group cn cid (popState ⟨cm, f :: rest⟩))
    ∧ create_groups GPid ["MSH", "PID", "PID"] =
        some [Node.seg "MSH" 0, Node.grp "G" [Node.seg "PID" 1],
          Node.grp "G" [Node.seg "PID" 2]] := by
  constructor
  · intro cn cid cm f rest k h1 h2 h3
    unfold find_group
    rw [show (popState ⟨cm, f :: rest⟩).stack.length = rest.length from by
      rw [popState_stack_length]; simp]
    rw [show (GState.mk cm (f :: rest)).stack.length = rest.length + 1 from by simp]
    simp only [find_groupGo, h1]
    rw [if_pos ⟨h2, h3⟩]
  · rfl

/-- Witness for C1: the second PID, with the group frame already at index
0, triggers the pop-and-retry. -/
theorem nonrepeatable_slot_pops_frame_witness :
    find_group "PID" 2 ⟨[], [⟨some "G", [Node.seg "PID" 1], Struct.seg "PID" 1 .nil, 0⟩,
        ⟨none, [Node.seg "MSH" 0], GPid, 1⟩]⟩ =
      find_group "PID" 2 (popState ⟨[],
        [⟨some "G", [Node.seg "PID" 1], Struct.seg "PID" 1 .nil, 0⟩,
         ⟨none, [Node.seg "MSH" 0], GPid, 1⟩]⟩) :=
  nonrepeatable_slot_pops_frame.1 "PID" 2 []
    ⟨some "G", [Node.seg "PID" 1], Struct.seg "PID" 1 .nil, 0⟩
    [⟨none, [Node.seg "MSH" 0], GPid, 1⟩] 0 (by rfl) (by decide) (by rfl)

/-- C2.  When `create_groups` terminates without error, every input
segment occurs exactly once in the resulting message tree — attached to
exactly one parent, neither duplicated nor dropped. -/
theorem create_groups_each_segment_once (st : Struct) (segs : List String)
    (ns : List Node) (h : create_groups st segs = some ns) :
    ∀ i, countNodes i ns = if i < segs.length then 1 else 0 := by
  intro i
  unfold create_groups at h
  cases hgo : create_groupsGo segs 0 ⟨[], [⟨none, [], st, -1⟩]⟩ with
  | none => rw [hgo] at h; simp at h
  | some t =>
    rw [hgo] at h
    simp only [Option.map_some', Option.some.injEq] at h
    subst h
    have h0 : countState i ⟨[], [⟨none, [], st, -1⟩]⟩ = 0 := by
      simp [countState, countStack, countNodes]
    have hc := create_groupsGo_count segs 0 _ t hgo i
    have hf := finalizeGo_count i t.stack.length t (le_refl _)
    unfold finalize
    rw [hf, hc, h0]
    split_ifs <;> omega

/-- Witness for C2 on a one-segment message. -/
theorem create_groups_each_segment_once_witness :
    countNodes 0 [Node.seg "MSH" 0] =
      if 0 < (["MSH"] : List String).length then 1 else 0 :=
  create_groups_each_segment_once GMsh ["MSH"] [Node.seg "MSH" 0] (by rfl) 0

theorem find_groupGo_notFound_len (cn : String) (cid : Nat) :
    ∀ (fuel : Nat) (s s' : GState),
      find_groupGo cn cid fuel s = (.notFound, s') →
      s'.stack.length ≤ s.stack.length := by
  intro fuel
  induction fuel with
  | zero =>
    intro s s' h
    rcases s with ⟨cm, _ | ⟨f, rest⟩⟩ <;>
      · simp only [find_groupGo] at h
        injection h with h1 h2
        simp at h1
  | succ fuel ih =>
    intro s s' h
    rcases s with ⟨cm, _ | ⟨f, rest⟩⟩
    · simp only [find_groupGo] at h
      injection h with h1 h2
      simp at h1
    · simp only [find_groupGo] at h
      split at h
      · rename_i k hsi
        split at h
        · have hrec := ih (popState ⟨cm, f :: rest⟩) s' h
          have hp := popState_stack_length ⟨cm, f :: rest⟩
          simp only [List.length_cons] at hp hrec ⊢
          omega
        · injection h with h1 h2
          simp at h1
      · rename_i hsi
        split at h
        · rename_i j frames hds
          injection h with h1 h2
          simp at h1
        · injection h with h1 h2
          subst h2
          simp

theorem trySegment_notFound_empty (cn : String) (cid : Nat) :
    ∀ (fuel : Nat) (s s' : GState), s.stack.length ≤ fuel →
      trySegment cn cid fuel s = (.notFound, s') → s'.stack = [] := by
  intro fuel
  induction fuel with
  | zero =>
    intro s s' hle h
    simp only [trySegment] at h
    injection h with h1 h2
    subst h2
    exact List.eq_nil_of_length_eq_zero (Nat.le_zero.1 hle)
  | succ fuel ih =>
    intro s s' hle h
    simp only [trySegment] at h
    split at h
    · rename_i k s1 hfg
      injection h with h1 h2
      simp at h1
    · rename_i s1 hfg
      injection h with h1 h2
      simp at h1
    · rename_i s1 hfg
      have hlen1 := find_groupGo_notFound_len cn cid s.stack.length s s1 hfg
      have hp := popState_stack_length s1
      exact ih (popState s1) s' (by omega) h

/-- Input segments tagged with their positions, starting at `i`. -/
def tagSegs : List String → Nat → List Node
  | [], _ => []
  | c :: cs, i => Node.seg c i :: tagSegs cs (i + 1)

/-- C9.  A per-segment search that fails at every level has popped every
frame, the root frame included, and the root frame is never rebuilt: from
then on each remaining segment is attached directly to the message with no
group search at all (the retry loop of parser.py 520 runs zero times on an
empty stack). -/
theorem root_frame_never_restored :
    (∀ (cn : String) (cid : Nat) (s s' : GState),
      processSegment cn cid s = (.notFound, s') → s'.stack = [])
    ∧ (∀ (cn : String) (cid : Nat) (s : GState), s.stack = [] →
      processSegment cn cid s = (.notFound, s))
    ∧ (∀ (segs : List String) (i : Nat) (cm : List Node),
      create_groupsGo segs i ⟨cm, []⟩ = some ⟨cm ++ tagSegs segs i, []⟩) := by
  refine ⟨?_, ?_, ?_⟩
  · intro cn cid s s' h
    exact trySegment_notFound_empty cn cid s.stack.length s s' (le_refl _) h
  · intro cn cid s h
    unfold processSegment
    rw [h]
    rfl
  · intro segs
    induction segs with
    | nil => intro i cm; simp [create_groupsGo, tagSegs]
    | cons c cs ih =>
      intro i cm
      have hps : processSegment c i (⟨cm, []⟩ : GState) = (.notFound, ⟨cm, []⟩) := rfl
      simp only [create_groupsGo, hps]
      rw [ih (i + 1) (cm ++ [Node.seg c i])]
      simp [tagSegs]

/-- Witness for C9: a segment unknown to the one-slot grammar empties the
stack. -/
theorem root_frame_never_restored_witness :
    (GState.mk ([] : List Node) ([] : List Frame)).stack = ([] : List Frame) :=
  root_frame_never_restored.1 "ZZZ" 0 ⟨[], [⟨none, [], GMsh, -1⟩]⟩ ⟨[], []⟩ (by rfl)

/-- C10.  A segment that repeats a non-repeatable slot matched at the root
frame makes `_find_group` pop the sole remaining frame via `_go_back` and
recurse on an empty stack, where reading the last element of `indexes`
raises an uncaught IndexError (parser.py 549-551, 574-579); `create_groups`
then aborts with that error rather than a parser error. -/
theorem repeated_root_slot_index_error :
    create_groups GMsh ["MSH", "MSH"] = none ∧
    (find_group "MSH" 1 ⟨[], [⟨none, [Node.seg "MSH" 0], GMsh, 0⟩]⟩).1 = .indexError :=
  ⟨rfl, rfl⟩

end hl7
